import Mathlib

/-!
Verification of the core numerical engines of the quantum-financial-advisor
repository: the classical Monte Carlo VaR/CVaR baseline, the discretized
distribution grid, the bad-state (threshold) set, the amplitude-estimation
risk calculators, and the combinatorial portfolio selector wrapper.

Shallow embedding conventions:
* machine floats are modelled by `ℚ`; `np.sqrt` is modelled by an abstract
  parameter `sqrtFn : ℚ → ℚ` where its exact value is irrelevant, and by
  `Real.sqrt` in statements that are about the square root itself;
* numpy's seeded global RNG is modelled by a table `table : ℕ → ℕ → ℚ`
  (`table s i` = the i-th standard-normal draw after `np.random.seed s`)
  together with an explicit state `RNGState` threaded through calls;
* external library calls (the QAOA/VQE solver `MinimumEigenOptimizer.solve`,
  qiskit's `NormalDistribution` constructor, `IterativeAmplitudeEstimation`)
  are modelled by explicit inputs carrying their outcome, so that the
  repository's own control flow around them is embedded exactly.
-/

namespace QFA

/-- Indices selected by a selection vector: `[i for i, x in enumerate(selection) if x > 0.5]`. -/
def selIndices (selection : List ℚ) : List ℕ :=
  (selection.enum.filter (fun p => decide ((1:ℚ)/2 < p.2))).map Prod.fst

/-- Equal weights over the selected indices, length `n = len(mu)`:
`weights[i] = 1/len(indices)` for selected `i`, else `0`. -/
def equalWeights (n : ℕ) (idxs : List ℕ) : List ℚ :=
  (List.range n).map (fun i => if i ∈ idxs then 1 / (idxs.length : ℚ) else 0)

/-- Dot product of two vectors (`np.dot` on 1-D arrays). -/
def dot (v w : List ℚ) : ℚ :=
  ((v.zip w).map (fun p => p.1 * p.2)).sum

/-- Matrix-vector product (`np.dot(sigma, weights)`). -/
def matVec (m : List (List ℚ)) (v : List ℚ) : List ℚ :=
  m.map (fun row => dot row v)

/-- Sub-portfolio mean `p_mu = np.dot(weights, mu)`. -/
def subMu (selection mu : List ℚ) : ℚ :=
  dot (equalWeights mu.length (selIndices selection)) mu

/-- Sub-portfolio variance `p_var = np.dot(weights, np.dot(sigma, weights))`, unfloored. -/
def subVar (selection mu : List ℚ) (sigma : List (List ℚ)) : ℚ :=
  let w := equalWeights mu.length (selIndices selection)
  dot w (matVec sigma w)

/-- Floored sub-portfolio variance `max(p_var, 1e-8)` as used by
`calculate_var_cvar_classical` and `calculate_risk_qae_enhanced`. -/
def subVarFloored (selection mu : List ℚ) (sigma : List (List ℚ)) : ℚ :=
  max (subVar selection mu sigma) (1 / 100000000)

/-- Sub-portfolio standard deviation `p_sigma = np.sqrt(max(p_var, 1e-8))`,
with the float square root abstracted as `sqrtFn`. -/
def subSigmaF (sqrtFn : ℚ → ℚ) (selection mu : List ℚ) (sigma : List (List ℚ)) : ℚ :=
  sqrtFn (subVarFloored selection mu sigma)

/-- Grid values of `uncert_model_values` (src/02_quantum_optimize.py):
`value(i) = low + i * (high - low) / (2**num_qubits - 1)` for `i = 0..2^n-1`. -/
def uncert_model_values (num_qubits : ℕ) (low high : ℚ) : List ℚ :=
  (List.range (2^num_qubits)).map
    (fun i : ℕ => low + (i : ℚ) * ((high - low) / ((2^num_qubits - 1 : ℕ) : ℚ)))

/-- Grid step of `calculate_risk_qae_enhanced` (src/cvar_estimator.py line 124):
`(high - low) / (2**4 - 1) if high > low else 0.01`. -/
def enh_step (low high : ℚ) : ℚ :=
  if low < high then (high - low) / ((2^4 - 1 : ℕ) : ℚ) else 1 / 100

/-- Grid values of `calculate_risk_qae_enhanced` (src/cvar_estimator.py line 125). -/
def enh_values (low high : ℚ) : List ℚ :=
  (List.range (2^4)).map (fun i : ℕ => low + (i : ℚ) * enh_step low high)

/-- Grid values of `get_values` inside `calculate_risk_qae` (src/quantum_lib.py
lines 124-129): `step = (high - low) / (2**4 - 1)` with no degenerate-bounds
fallback. -/
def get_values (low high : ℚ) : List ℚ :=
  (List.range (2^4)).map (fun i : ℕ => low + (i : ℚ) * ((high - low) / ((2^4 - 1 : ℕ) : ℚ)))

/-- Bad-state set `[i for i, v in enumerate(values) if v < threshold]`. -/
def good_states (values : List ℚ) (threshold : ℚ) : List ℕ :=
  (values.enum.filter (fun p => decide (p.2 < threshold))).map Prod.fst

/-- State of numpy's global RNG: the current standard-normal draw stream and
the position in it.  `np.random.seed s` replaces the stream by the seeded one
(`table s`) and resets the position. -/
structure RNGState where
  draws : ℕ → ℚ
  pos : ℕ

/-- Result record of `calculate_var_cvar_classical`; `Option` fields model
dictionary keys that are present only in the non-empty-selection result. -/
structure MCResult where
  var : ℚ
  cvar : ℚ
  expected_return : ℚ
  volatility : ℚ
  max_drawdown : Option ℚ
  confidence : Option ℚ

/-- Mean of a list (`np.mean`); the empty list is never relevant where used. -/
def listMean (xs : List ℚ) : ℚ := xs.sum / (xs.length : ℚ)

/-- `np.percentile(xs, q)` with numpy's default linear interpolation on the
ascending sort: position `q/100 * (n-1)`, interpolating between the two
adjacent order statistics. -/
def percentile (xs : List ℚ) (q : ℚ) : ℚ :=
  let sorted := List.insertionSort (· ≤ ·) xs
  let position : ℚ := q / 100 * ((xs.length : ℚ) - 1)
  let i : ℕ := (Int.floor position).toNat
  let frac : ℚ := position - (i : ℚ)
  let a := sorted.getD i 0
  let b := sorted.getD (i + 1) a
  a + frac * (b - a)

/-- Samples of `np.random.normal(p_mu, p_sigma, num_simulations)` right after
`np.random.seed(42)`: the i-th sample is `p_mu + p_sigma * table 42 i`. -/
def mcSamples (sqrtFn : ℚ → ℚ) (table : ℕ → ℕ → ℚ) (selection mu : List ℚ)
    (sigma : List (List ℚ)) (num_simulations : ℕ) : List ℚ :=
  (List.range num_simulations).map
    (fun i : ℕ => subMu selection mu + subSigmaF sqrtFn selection mu sigma * table 42 i)

/-- `var = -np.percentile(simulated_returns, (1 - confidence) * 100)`. -/
def mcVar (sqrtFn : ℚ → ℚ) (table : ℕ → ℕ → ℚ) (selection mu : List ℚ)
    (sigma : List (List ℚ)) (confidence : ℚ) (num_simulations : ℕ) : ℚ :=
  - percentile (mcSamples sqrtFn table selection mu sigma num_simulations)
      ((1 - confidence) * 100)

/-- `losses = -simulated_returns`. -/
def mcLosses (sqrtFn : ℚ → ℚ) (table : ℕ → ℕ → ℚ) (selection mu : List ℚ)
    (sigma : List (List ℚ)) (num_simulations : ℕ) : List ℚ :=
  (mcSamples sqrtFn table selection mu sigma num_simulations).map (fun x => -x)

/-- The strict tail `losses[losses > var]` averaged by the CVaR line. -/
def mcTail (sqrtFn : ℚ → ℚ) (table : ℕ → ℕ → ℚ) (selection mu : List ℚ)
    (sigma : List (List ℚ)) (confidence : ℚ) (num_simulations : ℕ) : List ℚ :=
  (mcLosses sqrtFn table selection mu sigma num_simulations).filter
    (fun x => decide (mcVar sqrtFn table selection mu sigma confidence num_simulations < x))

/-- `calculate_var_cvar_classical` (src/cvar_estimator.py lines 11-65).  The
float square root is abstracted as `sqrtFn`, the seeded RNG as `table`/`st`
(the function reseeds with 42 before drawing, so the incoming state is used
only when returned untouched by the empty-selection early return). -/
def calculate_var_cvar_classical (sqrtFn : ℚ → ℚ) (table : ℕ → ℕ → ℚ) (st : RNGState)
    (selection mu : List ℚ) (sigma : List (List ℚ))
    (confidence : ℚ) (num_simulations : ℕ) : MCResult × RNGState :=
  if selIndices selection = [] then
    ({ var := 0, cvar := 0, expected_return := 0, volatility := 0,
       max_drawdown := none, confidence := none }, st)
  else
    ({ var := mcVar sqrtFn table selection mu sigma confidence num_simulations,
       cvar := listMean (mcTail sqrtFn table selection mu sigma confidence num_simulations),
       expected_return := subMu selection mu,
       volatility := subSigmaF sqrtFn selection mu sigma,
       max_drawdown := some ((mcLosses sqrtFn table selection mu sigma num_simulations).max?.getD 0),
       confidence := some confidence },
     ⟨table 42, num_simulations⟩)

/-- Result record of `calculate_risk_qae_enhanced`, restricted to the fields
the verified properties are about; `classical_fallback` marks the branch taken
when the `NormalDistribution` constructor raises. -/
structure QAEEnhancedResult where
  var_probability : ℚ
  cvar_estimate : ℚ
  threshold : ℚ
  classical_fallback : Bool

/-- `calculate_risk_qae_enhanced` (src/cvar_estimator.py lines 67-175).
External library outcomes are explicit inputs: `ndFails` is whether the
`NormalDistribution` constructor raises, `aeOutcome` is the result of
`ae.estimate` (`Except.error` = the estimator raised, caught at line 162 and
replaced by the `0.05` fallback). -/
def calculate_risk_qae_enhanced (sqrtFn : ℚ → ℚ) (table : ℕ → ℕ → ℚ) (st : RNGState)
    (ndFails : Bool) (aeOutcome : Except Unit ℚ) (selection mu : List ℚ)
    (sigma : List (List ℚ)) (threshold : ℚ) : QAEEnhancedResult :=
  if selIndices selection = [] then
    { var_probability := 0, cvar_estimate := 0, threshold := threshold,
      classical_fallback := false }
  else
    let classical := (calculate_var_cvar_classical sqrtFn table st selection mu sigma
      (95/100) 10000).1
    if ndFails then
      { var_probability := classical.var, cvar_estimate := classical.cvar,
        threshold := threshold, classical_fallback := true }
    else
      let low := subMu selection mu - 4 * subSigmaF sqrtFn selection mu sigma
      let high := subMu selection mu + 4 * subSigmaF sqrtFn selection mu sigma
      if good_states (enh_values low high) threshold = [] then
        { var_probability := 0, cvar_estimate := 0, threshold := threshold,
          classical_fallback := false }
      else
        { var_probability := (match aeOutcome with | .ok v => v | .error _ => 5/100),
          cvar_estimate := classical.cvar, threshold := threshold,
          classical_fallback := false }

/-- `calculate_risk_qae` (src/quantum_lib.py lines 92-153).  `p_sigma` is the
unfloored `np.sqrt(p_var)`; `ae.estimate` is not wrapped in a handler, so a
failing estimation (`aeOutcome = Except.error ()`) propagates to the caller. -/
def calculate_risk_qae (sqrtFn : ℚ → ℚ) (aeOutcome : Except Unit ℚ)
    (selection mu : List ℚ) (sigma : List (List ℚ)) (threshold : ℚ) :
    Except Unit ℚ :=
  if selIndices selection = [] then .ok 0
  else
    let pSigma := sqrtFn (subVar selection mu sigma)
    let low := subMu selection mu - 3 * pSigma
    let high := subMu selection mu + 3 * pSigma
    if good_states (get_values low high) threshold = [] then .ok 0
    else aeOutcome

/-- Wrapper logic of `run_quantum_portfolio_optimization` (src/quantum_lib.py
lines 86-90) around the external solver: `selection = []` and then
`selection = result.x` when `result.x is not None`; returns `(selection, result.fval)`.
The external solver's result is an explicit input. -/
def run_quantum_portfolio_optimization (result_x : Option (List ℚ)) (fval : ℚ) :
    List ℚ × ℚ :=
  (match result_x with
   | none => []
   | some xs => xs, fval)

end QFA

namespace QFA

/-- C5: for `p_sigma > 0` (and spread factor `k > 0`, at least one qubit) the
discretizer's grid over `[p_mu - k*p_sigma, p_mu + k*p_sigma]` has `2^n` values,
each equal to `low + i*(high-low)/(2^n - 1)`, the values are pairwise strictly
increasing in index, and the `calculate_risk_qae_enhanced` grid agrees with
`uncert_model_values` at `n = 4`. -/
theorem uncert_model_values_formula_strictMono
    (p_mu p_sigma k : ℚ) (n : ℕ) (hσ : 0 < p_sigma) (hk : 0 < k) (hn : 1 ≤ n) :
    (uncert_model_values n (p_mu - k * p_sigma) (p_mu + k * p_sigma)).length = 2^n ∧
    (∀ i : ℕ, i < 2^n →
      (uncert_model_values n (p_mu - k * p_sigma) (p_mu + k * p_sigma))[i]? =
        some ((p_mu - k * p_sigma) + (i : ℚ) *
          (((p_mu + k * p_sigma) - (p_mu - k * p_sigma)) / ((2^n - 1 : ℕ) : ℚ)))) ∧
    (uncert_model_values n (p_mu - k * p_sigma) (p_mu + k * p_sigma)).Pairwise (· < ·) ∧
    (enh_values (p_mu - 4 * p_sigma) (p_mu + 4 * p_sigma) =
      uncert_model_values 4 (p_mu - 4 * p_sigma) (p_mu + 4 * p_sigma)) := by
  have hlowhigh : p_mu - k * p_sigma < p_mu + k * p_sigma := by nlinarith
  have hden : (0:ℚ) < ((2^n - 1 : ℕ) : ℚ) := by
    have h2 : (2:ℕ)^1 ≤ 2^n := Nat.pow_le_pow_right (by norm_num) hn
    have : (1:ℕ) ≤ 2^n - 1 := by omega
    exact_mod_cast Nat.lt_of_lt_of_le Nat.zero_lt_one this
  have hstep : (0:ℚ) <
      ((p_mu + k * p_sigma) - (p_mu - k * p_sigma)) / ((2^n - 1 : ℕ) : ℚ) := by
    apply div_pos _ hden
    nlinarith
  refine ⟨?_, ?_, ?_, ?_⟩
  · simp [uncert_model_values]
  · intro i hi
    simp [uncert_model_values, List.getElem?_map, List.getElem?_range, hi]
  · rw [uncert_model_values, List.pairwise_map]
    refine List.Pairwise.imp_of_mem ?_ (List.pairwise_lt_range (2^n))
    intro a b _ _ hab
    have : (a:ℚ) < (b:ℚ) := by exact_mod_cast hab
    have := mul_lt_mul_of_pos_right this hstep
    linarith
  · have hlh : p_mu - 4 * p_sigma < p_mu + 4 * p_sigma := by nlinarith
    unfold enh_values uncert_model_values enh_step
    rw [if_pos hlh]

/-- C5 witness: instantiation at `p_mu = 0`, `p_sigma = 1`, `k = 4`, `n = 2`. -/
theorem uncert_model_values_formula_strictMono_witness :
    (0:ℚ) < 1 ∧ (0:ℚ) < 4 ∧ 1 ≤ 2 ∧
    ((uncert_model_values 2 ((0:ℚ) - 4 * 1) ((0:ℚ) + 4 * 1)).length = 2^2 ∧
     (∀ i : ℕ, i < 2^2 →
       (uncert_model_values 2 ((0:ℚ) - 4 * 1) ((0:ℚ) + 4 * 1))[i]? =
         some (((0:ℚ) - 4 * 1) + (i : ℚ) *
           ((((0:ℚ) + 4 * 1) - ((0:ℚ) - 4 * 1)) / ((2^2 - 1 : ℕ) : ℚ)))) ∧
     (uncert_model_values 2 ((0:ℚ) - 4 * 1) ((0:ℚ) + 4 * 1)).Pairwise (· < ·) ∧
     (enh_values ((0:ℚ) - 4 * 1) ((0:ℚ) + 4 * 1) =
       uncert_model_values 4 ((0:ℚ) - 4 * 1) ((0:ℚ) + 4 * 1))) :=
  ⟨by norm_num, by norm_num, by norm_num,
    uncert_model_values_formula_strictMono 0 1 4 2 (by norm_num) (by norm_num) (by norm_num)⟩

/-- C6: the bad-state set is monotone in the threshold: for `t1 < t2` the set at
`t1` is a subset of the set at `t2` and its size is no larger. -/
theorem good_states_monotone (values : List ℚ) (t1 t2 : ℚ) (h : t1 < t2) :
    good_states values t1 ⊆ good_states values t2 ∧
    (good_states values t1).length ≤ (good_states values t2).length := by
  have hsub : List.Sublist (values.enum.filter (fun p => decide (p.2 < t1)))
      (values.enum.filter (fun p => decide (p.2 < t2))) := by
    apply List.monotone_filter_right
    intro p hp
    simp only [decide_eq_true_eq] at hp ⊢
    exact lt_trans hp h
  have hmap := hsub.map Prod.fst
  exact ⟨hmap.subset, hmap.length_le⟩

/-- C6 witness: instantiation at a concrete two-value grid and thresholds. -/
theorem good_states_monotone_witness :
    (0:ℚ) < 1 ∧
    (good_states [(0:ℚ), 2] 0 ⊆ good_states [(0:ℚ), 2] 1 ∧
     (good_states [(0:ℚ), 2] 0).length ≤ (good_states [(0:ℚ), 2] 1).length) :=
  ⟨by norm_num, good_states_monotone [(0:ℚ), 2] 0 1 (by norm_num)⟩

/-- C2: the selector wrapper returns the empty (all-zero) selection when the
solver reports no feasible solution (`result.x is None`), and passes a feasible
solver solution through unchanged, so its sum equals the budget. -/
theorem run_quantum_portfolio_optimization_budget
    (result_x : Option (List ℚ)) (fval budget : ℚ) :
    (result_x = none →
      (run_quantum_portfolio_optimization result_x fval).1 = [] ∧
      (∀ x ∈ (run_quantum_portfolio_optimization result_x fval).1, x = 0) ∧
      (run_quantum_portfolio_optimization result_x fval).1.sum = 0) ∧
    (∀ xs, result_x = some xs → xs.sum = budget →
      (run_quantum_portfolio_optimization result_x fval).1.sum = budget) := by
  constructor
  · rintro rfl
    refine ⟨rfl, ?_, rfl⟩
    intro x hx
    simp [run_quantum_portfolio_optimization] at hx
  · rintro xs rfl hsum
    simpa [run_quantum_portfolio_optimization] using hsum

/-- C2 witness: the infeasible case returns the empty selection, and a feasible
solver vector `[1,1,0,0]` with budget `2` yields a selection summing to `2`. -/
theorem run_quantum_portfolio_optimization_budget_witness :
    ((run_quantum_portfolio_optimization none 0).1 = [] ∧
     (∀ x ∈ (run_quantum_portfolio_optimization none 0).1, x = 0) ∧
     (run_quantum_portfolio_optimization none 0).1.sum = 0) ∧
    (run_quantum_portfolio_optimization (some [1, 1, 0, 0]) 0).1.sum = 2 :=
  ⟨(run_quantum_portfolio_optimization_budget none 0 2).1 rfl,
   (run_quantum_portfolio_optimization_budget (some [1, 1, 0, 0]) 0 2).2
     [1, 1, 0, 0] rfl (by norm_num)⟩

/-- C8 counterexample: `get_values` in `calculate_risk_qae` has no degenerate-
bounds fallback: at `low = high = 0` (the `p_sigma = 0` case) its grid is the
constant-zero grid, not the fixed-step-`0.01` grid the claim asserts. -/
theorem get_values_no_fallback_counterexample :
    get_values 0 0 ≠ (List.range (2^4)).map (fun i : ℕ => (0:ℚ) + (i : ℚ) * (1 / 100)) := by
  intro h
  have h1 := congrArg (fun l => l[1]?) h
  simp [get_values] at h1

/-- C8 (amended): in `calculate_risk_qae_enhanced` the grid does fall back to
the fixed step `0.01` whenever `high <= low`, and the grid values are then
`low + i * 0.01`; no division error can occur since the only division is by
`2^4 - 1 = 15`. -/
theorem enh_values_degenerate_fallback (low high : ℚ) (h : high ≤ low) :
    enh_step low high = 1 / 100 ∧
    enh_values low high = (List.range (2^4)).map (fun i : ℕ => low + (i : ℚ) * (1 / 100)) := by
  have hstep : enh_step low high = 1 / 100 := by
    unfold enh_step
    rw [if_neg (not_lt.mpr h)]
  exact ⟨hstep, by unfold enh_values; rw [hstep]⟩

/-- Helper: a lower bound on every element of a list bounds `v * length` by the sum. -/
theorem mul_length_le_sum (v : ℚ) (l : List ℚ) (h : ∀ x ∈ l, v ≤ x) :
    v * (l.length : ℚ) ≤ l.sum := by
  induction l with
  | nil => simp
  | cons a t ih =>
    have ha := h a (List.mem_cons_self a t)
    have ht := ih (fun x hx => h x (List.mem_cons_of_mem a hx))
    simp only [List.sum_cons, List.length_cons]
    push_cast
    nlinarith [ht, ha]

/-- Helper: the mean of a non-empty list is at least any lower bound on its
elements. -/
theorem le_listMean_of_forall_le (v : ℚ) (l : List ℚ) (hne : l ≠ [])
    (h : ∀ x ∈ l, v ≤ x) : v ≤ listMean l := by
  have hlen : (0:ℚ) < (l.length : ℚ) := by
    have : l.length ≠ 0 := fun hc => hne (List.length_eq_zero.mp hc)
    exact_mod_cast Nat.pos_of_ne_zero this
  rw [listMean, le_div_iff₀ hlen]
  exact mul_length_le_sum v l h

/-- C1: in every Monte Carlo run of `calculate_var_cvar_classical` with a
non-empty selection (and a non-empty strict tail, which the CVaR line
`mean(losses[losses > var])` presupposes), the returned CVaR is at least the
returned VaR.  Quantified over the abstracted float square root and every
possible seeded draw stream, hence over every run. -/
theorem mc_cvar_ge_var (sqrtFn : ℚ → ℚ) (table : ℕ → ℕ → ℚ) (st : RNGState)
    (selection mu : List ℚ) (sigma : List (List ℚ)) (confidence : ℚ)
    (num_simulations : ℕ)
    (hsel : selIndices selection ≠ [])
    (htail : mcTail sqrtFn table selection mu sigma confidence num_simulations ≠ []) :
    (calculate_var_cvar_classical sqrtFn table st selection mu sigma confidence
      num_simulations).1.var ≤
    (calculate_var_cvar_classical sqrtFn table st selection mu sigma confidence
      num_simulations).1.cvar := by
  simp only [calculate_var_cvar_classical, if_neg hsel]
  apply le_listMean_of_forall_le _ _ htail
  intro x hx
  rw [mcTail, List.mem_filter] at hx
  have := hx.2
  simp only [decide_eq_true_eq] at this
  exact le_of_lt this

/-- C1 witness: a concrete run with four draws `0,1,2,3` where the strict tail
is non-empty and `VaR ≤ CVaR`. -/
theorem mc_cvar_ge_var_witness :
    selIndices [(1:ℚ)] ≠ [] ∧
    mcTail (fun _ => 1) (fun _ i => (i:ℚ)) [(1:ℚ)] [0] [[0]] (95/100) 4 ≠ [] ∧
    (calculate_var_cvar_classical (fun _ => 1) (fun _ i => (i:ℚ)) ⟨fun _ => 0, 0⟩
      [(1:ℚ)] [0] [[0]] (95/100) 4).1.var ≤
    (calculate_var_cvar_classical (fun _ => 1) (fun _ i => (i:ℚ)) ⟨fun _ => 0, 0⟩
      [(1:ℚ)] [0] [[0]] (95/100) 4).1.cvar := by
  have h1 : selIndices [(1:ℚ)] ≠ [] := by
    norm_num [selIndices, List.enum, List.enumFrom, List.filter]
  have h2 : mcTail (fun _ => 1) (fun _ i => (i:ℚ)) [(1:ℚ)] [0] [[0]] (95/100) 4 ≠ [] := by
    norm_num [mcTail, mcLosses, mcSamples, mcVar, percentile, subMu, subSigmaF,
      subVarFloored, subVar, equalWeights, selIndices, dot, matVec, listMean,
      List.enum, List.enumFrom, List.filter, List.range_succ,
      List.insertionSort, List.orderedInsert]
  exact ⟨h1, h2,
    mc_cvar_ge_var (fun _ => 1) (fun _ i => (i:ℚ)) ⟨fun _ => 0, 0⟩
      [(1:ℚ)] [0] [[0]] (95/100) 4 h1 h2⟩

/-- C7: `calculate_var_cvar_classical` reseeds numpy's global RNG with the
fixed seed 42 before drawing, so two calls with identical inputs (selection,
mu, sigma, confidence, num_simulations) return identical result records, no
matter the RNG states the calls start from. -/
theorem mc_deterministic_given_seed (sqrtFn : ℚ → ℚ) (table : ℕ → ℕ → ℚ)
    (st1 st2 : RNGState) (selection mu : List ℚ) (sigma : List (List ℚ))
    (confidence : ℚ) (num_simulations : ℕ) :
    (calculate_var_cvar_classical sqrtFn table st1 selection mu sigma confidence
      num_simulations).1 =
    (calculate_var_cvar_classical sqrtFn table st2 selection mu sigma confidence
      num_simulations).1 := by
  by_cases h : selIndices selection = [] <;>
    simp [calculate_var_cvar_classical, h]

/-- C10: for an empty selection (no entry above 0.5) the classical Monte Carlo
function returns the record whose keys are exactly `var`, `cvar`,
`expected_return`, `volatility`, all `0`, with the `max_drawdown` and
`confidence` keys absent (modelled by `none`), and leaves the RNG untouched. -/
theorem mc_empty_selection_record (sqrtFn : ℚ → ℚ) (table : ℕ → ℕ → ℚ)
    (st : RNGState) (selection mu : List ℚ) (sigma : List (List ℚ))
    (confidence : ℚ) (num_simulations : ℕ)
    (h : selIndices selection = []) :
    (calculate_var_cvar_classical sqrtFn table st selection mu sigma confidence
      num_simulations).1 =
      { var := 0, cvar := 0, expected_return := 0, volatility := 0,
        max_drawdown := none, confidence := none } ∧
    (calculate_var_cvar_classical sqrtFn table st selection mu sigma confidence
      num_simulations).2 = st := by
  constructor <;> simp [calculate_var_cvar_classical, h]

/-- C10 witness: instantiation at the all-zero selection `[0, 0]`. -/
theorem mc_empty_selection_record_witness :
    selIndices [(0:ℚ), 0] = [] ∧
    ((calculate_var_cvar_classical (fun q => q) (fun _ _ => 0) ⟨fun _ => 0, 0⟩
      [(0:ℚ), 0] [1, 2] [[1, 0], [0, 1]] (95/100) 3).1 =
      { var := 0, cvar := 0, expected_return := 0, volatility := 0,
        max_drawdown := none, confidence := none } ∧
     (calculate_var_cvar_classical (fun q => q) (fun _ _ => 0) ⟨fun _ => 0, 0⟩
      [(0:ℚ), 0] [1, 2] [[1, 0], [0, 1]] (95/100) 3).2 = ⟨fun _ => 0, 0⟩) := by
  have h : selIndices [(0:ℚ), 0] = [] := by
    norm_num [selIndices, List.enum, List.enumFrom, List.filter]
  exact ⟨h,
    mc_empty_selection_record (fun q => q) (fun _ _ => 0) ⟨fun _ => 0, 0⟩
      [(0:ℚ), 0] [1, 2] [[1, 0], [0, 1]] (95/100) 3 h⟩

/-- C9 (amended): in `calculate_var_cvar_classical` and
`calculate_risk_qae_enhanced` the sub-portfolio variance is floored at `1e-8`
before the square root, so `p_sigma = sqrt(max(p_var, 1e-8)) >= sqrt(1e-8)`;
stated with the mathematical square root applied to the embedded floored
variance. -/
theorem subSigma_floored_ge (selection mu : List ℚ) (sigma : List (List ℚ))
    (_hsel : selIndices selection ≠ []) :
    Real.sqrt ((1:ℝ)/100000000) ≤
      Real.sqrt ((subVarFloored selection mu sigma : ℚ) : ℝ) := by
  apply Real.sqrt_le_sqrt
  have h : (1/100000000 : ℚ) ≤ subVarFloored selection mu sigma :=
    le_max_right _ _
  have := (Rat.cast_le (K := ℝ)).mpr h
  push_cast at this ⊢
  linarith

/-- C9 witness: instantiation at selection `[1]`, `mu = [0]`, `sigma = [[1]]`. -/
theorem subSigma_floored_ge_witness :
    selIndices [(1:ℚ)] ≠ [] ∧
    Real.sqrt ((1:ℝ)/100000000) ≤
      Real.sqrt ((subVarFloored [(1:ℚ)] [0] [[1]] : ℚ) : ℝ) := by
  have h : selIndices [(1:ℚ)] ≠ [] := by
    norm_num [selIndices, List.enum, List.enumFrom, List.filter]
  exact ⟨h, subSigma_floored_ge [(1:ℚ)] [0] [[1]] h⟩

/-- C9 counterexample: `calculate_risk_qae` (src/quantum_lib.py line 113) does
not floor the variance: for the non-empty selection `[1]` with `mu = [0]`,
`sigma = [[0]]` the sub-portfolio variance is `0`, so `p_sigma = sqrt(0) = 0`
is strictly below `sqrt(1e-8)`, refuting the claim for this risk calculator. -/
theorem qae_sigma_unfloored_counterexample :
    selIndices [(1:ℚ)] ≠ [] ∧
    Real.sqrt ((subVar [(1:ℚ)] [0] [[0]] : ℚ) : ℝ) <
      Real.sqrt ((1:ℝ)/100000000) := by
  constructor
  · norm_num [selIndices, List.enum, List.enumFrom, List.filter]
  · have h0 : subVar [(1:ℚ)] [0] [[0]] = 0 := by
      norm_num [subVar, equalWeights, selIndices, dot, matVec,
        List.enum, List.enumFrom, List.filter, List.range_succ]
    rw [h0]
    push_cast
    rw [Real.sqrt_zero]
    apply Real.sqrt_pos.mpr
    norm_num

/-- C8 witness: instantiation at the degenerate bounds `low = high = 0`. -/
theorem enh_values_degenerate_fallback_witness :
    (0:ℚ) ≤ 0 ∧
    (enh_step 0 0 = 1 / 100 ∧
     enh_values 0 0 = (List.range (2^4)).map (fun i : ℕ => (0:ℚ) + (i : ℚ) * (1 / 100))) :=
  ⟨le_refl 0, enh_values_degenerate_fallback 0 0 (le_refl 0)⟩

/-- Helper: insertion sort leaves a constant list unchanged. -/
theorem insertionSort_replicate (n : ℕ) (c : ℚ) :
    List.insertionSort (· ≤ ·) (List.replicate n c) = List.replicate n c :=
  List.Sorted.insertionSort_eq (List.pairwise_replicate.mpr (Or.inr (le_refl c)))

/-- Helper: the percentile of a constant sample list is that constant, whenever
the interpolation index stays inside the list. -/
theorem percentile_replicate (n : ℕ) (c q : ℚ) (hn : 0 < n)
    (hq : q / 100 * ((n : ℚ) - 1) < (n : ℚ)) :
    percentile (List.replicate n c) q = c := by
  have hfl : Int.floor (q / 100 * ((n : ℚ) - 1)) < (n : ℤ) := by
    rw [Int.floor_lt]
    exact_mod_cast hq
  have hi : (Int.floor (q / 100 * ((n : ℚ) - 1))).toNat < n := by omega
  have hgetD : ∀ m : ℕ, m < n → (List.replicate n c).getD m 0 = c := by
    intro m hm
    simp [List.getD_eq_getElem?_getD, List.getElem?_replicate, hm]
  simp only [percentile, insertionSort_replicate, List.length_replicate]
  rw [hgetD _ hi]
  have hb : (List.replicate n c).getD
      ((Int.floor (q / 100 * ((n : ℚ) - 1))).toNat + 1) c = c := by
    by_cases hlt : (Int.floor (q / 100 * ((n : ℚ) - 1))).toNat + 1 < n <;>
      simp [List.getD_eq_getElem?_getD, List.getElem?_replicate, hlt]
  rw [hb]
  ring

/-- Helper: with the all-zero draw stream every sample equals the sub-portfolio
mean. -/
theorem mcSamples_const_table (sqrtFn : ℚ → ℚ) (selection mu : List ℚ)
    (sigma : List (List ℚ)) (n : ℕ) :
    mcSamples sqrtFn (fun _ _ => 0) selection mu sigma n =
      List.replicate n (subMu selection mu) := by
  simp [mcSamples]

/-- Helper: with the all-zero draw stream the Monte Carlo VaR at the default
confidence is minus the sub-portfolio mean. -/
theorem mcVar_const_table (sqrtFn : ℚ → ℚ) (selection mu : List ℚ)
    (sigma : List (List ℚ)) :
    mcVar sqrtFn (fun _ _ => 0) selection mu sigma (95/100) 10000 =
      - subMu selection mu := by
  rw [mcVar, mcSamples_const_table, percentile_replicate] <;> norm_num

/-- C3 (amended): `calculate_risk_qae_enhanced` substitutes the fixed fallback
probability `0.05` and returns normally whenever `ae.estimate` fails (for any
run that reaches the estimation step: non-empty selection, distribution
constructed, non-empty bad-state set).  The unamended claim fails for
`calculate_risk_qae`, which propagates the failure. -/
theorem qae_enhanced_substitutes_fallback (sqrtFn : ℚ → ℚ) (table : ℕ → ℕ → ℚ)
    (st : RNGState) (selection mu : List ℚ) (sigma : List (List ℚ)) (threshold : ℚ)
    (hsel : selIndices selection ≠ [])
    (hgs : good_states
      (enh_values (subMu selection mu - 4 * subSigmaF sqrtFn selection mu sigma)
        (subMu selection mu + 4 * subSigmaF sqrtFn selection mu sigma))
      threshold ≠ []) :
    (calculate_risk_qae_enhanced sqrtFn table st false (Except.error ()) selection mu
      sigma threshold).var_probability = 5/100 := by
  simp [calculate_risk_qae_enhanced, hsel, hgs]

/-- C3 witness: a concrete run (selection `[1]`, `mu = [0]`, `sigma = [[1]]`,
threshold `-0.1`) that reaches the estimation step; on estimation failure the
returned probability is `0.05`. -/
theorem qae_enhanced_substitutes_fallback_witness :
    selIndices [(1:ℚ)] ≠ [] ∧
    good_states
      (enh_values (subMu [(1:ℚ)] [0] - 4 * subSigmaF (fun q => q) [(1:ℚ)] [0] [[1]])
        (subMu [(1:ℚ)] [0] + 4 * subSigmaF (fun q => q) [(1:ℚ)] [0] [[1]]))
      (-1/10) ≠ [] ∧
    (calculate_risk_qae_enhanced (fun q => q) (fun _ _ => 0) ⟨fun _ => 0, 0⟩ false
      (Except.error ()) [(1:ℚ)] [0] [[1]] (-1/10)).var_probability = 5/100 := by
  have h1 : selIndices [(1:ℚ)] ≠ [] := by
    norm_num [selIndices, List.enum, List.enumFrom, List.filter]
  have h2 : good_states
      (enh_values (subMu [(1:ℚ)] [0] - 4 * subSigmaF (fun q => q) [(1:ℚ)] [0] [[1]])
        (subMu [(1:ℚ)] [0] + 4 * subSigmaF (fun q => q) [(1:ℚ)] [0] [[1]]))
      (-1/10) ≠ [] := by
    norm_num [good_states, enh_values, enh_step, subMu, subSigmaF, subVarFloored,
      subVar, dot, matVec, equalWeights, selIndices, max_def,
      List.enum, List.enumFrom, List.filter, List.range_succ]
    decide
  exact ⟨h1, h2,
    qae_enhanced_substitutes_fallback (fun q => q) (fun _ _ => 0) ⟨fun _ => 0, 0⟩
      [(1:ℚ)] [0] [[1]] (-1/10) h1 h2⟩

/-- C3 counterexample: `calculate_risk_qae` has no handler around
`ae.estimate`; on the same kind of input an estimation failure propagates to
the caller (in src/server.py it reaches the request-level handler, aborting the
request) instead of being replaced by the `0.05` fallback. -/
theorem qae_propagates_failure_counterexample :
    calculate_risk_qae (fun q => q) (Except.error ()) [(1:ℚ)] [0] [[1]] (-1/10) =
      Except.error () ∧
    calculate_risk_qae (fun q => q) (Except.error ()) [(1:ℚ)] [0] [[1]] (-1/10) ≠
      Except.ok (5/100) := by
  have h : calculate_risk_qae (fun q => q) (Except.error ()) [(1:ℚ)] [0] [[1]] (-1/10) =
      Except.error () := by
    norm_num [calculate_risk_qae, good_states, get_values, subMu, subVar, dot, matVec,
      equalWeights, selIndices, List.enum, List.enumFrom, List.filter, List.range_succ]
    intro hc
    exact absurd hc (by decide)
  refine ⟨h, ?_⟩
  rw [h]
  simp

/-- C4: on the branch taken when the `NormalDistribution` constructor fails,
`calculate_risk_qae_enhanced` stores the classical VaR — a return-scale loss
quantity, not a probability — in `var_probability`.  At selection `[1]`,
`mu = [10]`, `sigma = [[0]]` (modelled seeded draws all `0`, float square root
exact at the evaluated point `1e-8`), the returned `var_probability` is `-10`,
outside `[0, 1]`. -/
theorem qae_enhanced_fallback_prob_out_of_range :
    (calculate_risk_qae_enhanced (fun _ => 1/10000) (fun _ _ => 0) ⟨fun _ => 0, 0⟩ true
      (Except.ok 0) [(1:ℚ)] [10] [[0]] (-1/10)).var_probability = -10 ∧
    (calculate_risk_qae_enhanced (fun _ => 1/10000) (fun _ _ => 0) ⟨fun _ => 0, 0⟩ true
      (Except.ok 0) [(1:ℚ)] [10] [[0]] (-1/10)).var_probability < 0 := by
  have hsel : selIndices [(1:ℚ)] ≠ [] := by
    norm_num [selIndices, List.enum, List.enumFrom, List.filter]
  have hmu : subMu [(1:ℚ)] [10] = 10 := by
    norm_num [subMu, dot, equalWeights, selIndices, matVec,
      List.enum, List.enumFrom, List.filter, List.range_succ]
  have h : (calculate_risk_qae_enhanced (fun _ => 1/10000) (fun _ _ => 0) ⟨fun _ => 0, 0⟩ true
      (Except.ok 0) [(1:ℚ)] [10] [[0]] (-1/10)).var_probability = -10 := by
    simp only [calculate_risk_qae_enhanced, if_neg hsel, if_true,
      calculate_var_cvar_classical]
    rw [mcVar_const_table, hmu]
  exact ⟨h, by rw [h]; norm_num⟩

end QFA
